import Mathlib

/-!
Verification of the transaction-lifecycle coordinator of the
`tableland-starter` app (`src/App.tsx`).

The development shallowly embeds:

* the `create` / `write` helper functions of `App.tsx` as Lean functions over
  explicit environments standing for the network services they call
  (`Database.prepare(..).run()`, `txn.wait()`, `Validator.getTableById`);
* the React component `App` as a deterministic transition system `step` over a
  state `Sys` recording the relevant `useState` cells, the `AbortController`s
  ever created by the polling `useEffect`, and a log of coordinator actions.

React semantics embedded in `step`: when the dependencies of the polling
`useEffect` change, React first runs the previous effect instance's cleanup
(`controller.abort()`), then runs the effect body, which starts a new poll
when `pendingWriteTx` is set.  This cleanup-before-body order is `effectCycle`.

The SDK poller `Validator.pollForReceiptByTransactionHash` is not part of this
repository's sources; its cancellation behaviour is modelled from the spec
(section 4.2): once the cancellation signal is raised the poller stops and its
future never resolves nor rejects.  In the model this is the `aborted` guard in
`settle`: settlement events for an aborted controller are no-ops.
-/

namespace Tableland

/-- A row of the demo table: the `TableSchema` interface of `App.tsx`
(`id integer primary key, name text, block text, tx text`). -/
structure TableSchema where
  id : Nat
  name : String
  block : String
  tx : String
  deriving Repr, DecidableEq

/-! ## The `create` table-provisioning flow (`create` in `App.tsx`) -/

/-- One column of the schema object returned by `validator.getTableById`:
keys `name`, `type`, `constraints`. -/
structure Column where
  name : String
  type : String
  constraints : Option String
  deriving Repr, DecidableEq

/-- The `schema` object of the `getTableById` response: `schema.columns`. -/
structure TableSchemaInfo where
  columns : List Column
  deriving Repr, DecidableEq

/-- The subset of the `getTableById` response read by `create`. -/
structure TableInfo where
  schema : TableSchemaInfo
  deriving Repr, DecidableEq

/-- The transaction object `create.txn` of a create response: the table id,
the network-assigned table name `{prefix}_{chainId}_{tableId}`, and the
transaction hash. -/
structure Txn where
  tableId : String
  name : String
  transactionHash : String
  deriving Repr, DecidableEq

/-- `meta` of a create response: `meta.txn` is optional in the SDK types,
hence the `Option`. -/
structure CreateMeta where
  txn : Option Txn
  deriving Repr, DecidableEq

/-- Environment of external services consumed by `create`:
`runCreate` is `db.prepare(statement).run()` (either its `meta` or a thrown
error), `waitResolves` says whether `create.txn.wait()` ever settles,
`waitResult` is its result when it does, and `getTableById` is the validator
lookup by chain id and table id. -/
structure CreateEnv where
  chainId : Nat
  runCreate : String → Except String CreateMeta
  waitResolves : Bool
  waitResult : Except String Unit
  getTableById : Nat → String → Except String TableInfo

/-- The SQL text built by `create` in `App.tsx`. -/
def createStatement (pfx : String) : String :=
  "CREATE TABLE \"" ++ pfx ++
    "\" (id integer primary key, name text, block text, tx text);"

/-- Per-column string built by `create`:
`` `${col.name} ${col.type} ${col.constraints ? col.constraints : ""}` ``. -/
def formatColumn (col : Column) : String :=
  col.name ++ " " ++ col.type ++ " " ++
    (match col.constraints with
     | some c => c
     | none => "")

/-- The `create` function of `App.tsx`.  `none` models a call that never
returns (the `await create.txn?.wait()` suspension when confirmation never
resolves); `some (.error e)` models a thrown error, `some (.ok r)` a normal
return of the table name and the per-column schema strings. -/
def create (env : CreateEnv) (pfx : String) :
    Option (Except String (String × List String)) :=
  match env.runCreate (createStatement pfx) with
  | .error e => some (.error e)
  | .ok m =>
    match m.txn with
    | none =>
      -- `create.txn?.wait()` short-circuits, then `create.txn!` throws.
      some (.error "TypeError: create.txn is undefined")
    | some txn =>
      if env.waitResolves then
        match env.waitResult with
        | .error e => some (.error e)
        | .ok _ =>
          match env.getTableById env.chainId txn.tableId with
          | .error e => some (.error e)
          | .ok info =>
            some (.ok (txn.name, info.schema.columns.map formatColumn))
      else none

/-! ## The `write` submission path (`write` in `App.tsx`) -/

/-- The transaction object `insert.txn` of a write response. -/
structure WriteTxn where
  transactionHash : String
  deriving Repr, DecidableEq

/-- `meta` of a write response. -/
structure WriteMeta where
  txn : Option WriteTxn
  deriving Repr, DecidableEq

/-- Environment consumed by `write`: `runInsert` is
`db.prepare(statement).bind(name).run()` (statement and bound value), and
`confirmLater` records whether the submitted transaction is eventually
confirmed by the network — `write` never consults it, which is exactly the
claim that `write` returns on acceptance without awaiting confirmation. -/
structure WriteEnv where
  runInsert : String → String → Except String WriteMeta
  confirmLater : Bool

/-- The SQL text built by `write` in `App.tsx`. -/
def insertStatement (tableName : String) : String :=
  "INSERT INTO " ++ tableName ++
    " (name, block, tx) VALUES (?, BLOCK_NUM(), TXN_HASH());"

/-- The `write` function of `App.tsx`: submit the insert, then return
`insert.txn!.transactionHash` of the still-pending transaction. -/
def write (env : WriteEnv) (tableName nm : String) : Except String String :=
  match env.runInsert (insertStatement tableName) nm with
  | .error e => .error e
  | .ok m =>
    match m.txn with
    | none => .error "TypeError: insert.txn is undefined"
    | some txn => .ok txn.transactionHash

/-! ## `handleCreate` (error containment for provisioning) -/

/-- The slice of `App` state read and written by `handleCreate`. -/
structure AppCreateState where
  tableName : Option String
  schema : List String
  isLoading : Bool
  deriving Repr, DecidableEq

/-- The `handleCreate` handler of `App.tsx`: sets `isLoading`, calls `create`
when a signer is connected (its outcome is the `createResult` argument),
stores the returned name and schema on success, catches a thrown error
(resetting `isLoading`), and finally resets `isLoading`. -/
def handleCreate (signerSet : Bool)
    (createResult : Except String (String × List String))
    (s : AppCreateState) : AppCreateState :=
  let s1 := { s with isLoading := true }
  let s2 :=
    if signerSet then
      match createResult with
      | .ok r => { s1 with tableName := some r.1, schema := r.2 }
      | .error _ => { s1 with isLoading := false }
    else s1
  { s2 with isLoading := false }

/-! ## The lifecycle coordinator as a transition system -/

/-- One poll started by the `pendingWriteTx` `useEffect`: the identity of its
`AbortController` (`pid`, in creation order), the transaction hash it polls,
whether `controller.abort()` has been called, and the settlement of its
future (`none` while unsettled, `some true` resolved, `some false`
rejected). -/
structure Poller where
  pid : Nat
  handle : String
  aborted : Bool
  outcome : Option Bool
  deriving Repr, DecidableEq

/-- Coordinator actions, logged in execution order. -/
inductive Action where
  | submitWrite (h : String)
  | startPoll (pid : Nat) (h : String)
  | abortCtrl (pid : Nat)
  | clearPending
  | refreshData
  deriving Repr, DecidableEq

/-- The coordinator state: the relevant `useState` cells of `App`, every
poller ever created, the controller the currently mounted effect instance
would abort on cleanup (`current`), a log of actions, and the list of
controller ids whose terminal callback (`clearPendingTxAndRefresh`) ran. -/
structure Sys where
  mounted : Bool
  signerSet : Bool
  tableName : Option String
  schema : List String
  data : List TableSchema
  pendingWriteTx : Option String
  pollers : List Poller
  current : Option Nat
  nextPid : Nat
  refreshLog : List Nat
  log : List Action
  deriving Repr, DecidableEq

/-- Initial state: freshly mounted component, nothing connected. -/
def init : Sys :=
  { mounted := true, signerSet := false, tableName := none, schema := [],
    data := [], pendingWriteTx := none, pollers := [], current := none,
    nextPid := 0, refreshLog := [], log := [] }

/-- `controller.abort()` on controller `pid`. -/
def abortPid (ps : List Poller) (pid : Nat) : List Poller :=
  ps.map fun p => if p.pid = pid then { p with aborted := true } else p

/-- Record the settlement of the poll future owned by controller `pid`. -/
def setOutcome (ps : List Poller) (pid : Nat) (success : Bool) :
    List Poller :=
  ps.map fun p => if p.pid = pid then { p with outcome := some success } else p

/-- Look up a poller by controller id. -/
def findP (ps : List Poller) (pid : Nat) : Option Poller :=
  ps.find? fun p => p.pid == pid

/-- Look up a poller in a state. -/
def findPoller (s : Sys) (pid : Nat) : Option Poller :=
  findP s.pollers pid

/-- Cleanup of the mounted polling-effect instance: abort the controller it
created, if it created one (`return () => { controller.abort(); }`). -/
def runCleanup (s : Sys) : Sys :=
  match s.current with
  | none => s
  | some pid =>
    { s with pollers := abortPid s.pollers pid, current := none,
             log := s.log ++ [Action.abortCtrl pid] }

/-- Body of the polling effect: when `pendingWriteTx` is set, create a fresh
`AbortController` and start `pollForReceiptByTransactionHash` with its
signal; otherwise do nothing. -/
def startEffect (s : Sys) : Sys :=
  match s.pendingWriteTx with
  | none => s
  | some h =>
    { s with
      pollers := s.pollers ++ [{ pid := s.nextPid, handle := h,
                                 aborted := false, outcome := none }],
      current := some s.nextPid, nextPid := s.nextPid + 1,
      log := s.log ++ [Action.startPoll s.nextPid h] }

/-- React re-running the polling effect after its dependencies changed:
previous cleanup first, then the new effect body. -/
def effectCycle (s : Sys) : Sys := startEffect (runCleanup s)

/-- The `Write` button is enabled exactly when
`signer && tableName ? false : true` is `false` (and the component is
mounted); `pendingWriteTx` does not occur in the guard. -/
def canWrite (s : Sys) : Bool :=
  s.mounted && s.signerSet && s.tableName.isSome

/-- Settlement of the poll future owned by controller `pid`.  Modelled from
the spec (section 4.2) where the poller itself (SDK code not in this
repository) is concerned: a cancelled poll's future never resolves nor
rejects, hence the `aborted` no-op guard; a future settles at most once,
hence the `outcome.isSome` guard.  Otherwise the `then`/`catch` handler runs
`clearPendingTxAndRefresh` exactly as in `App.tsx`: clear `pendingWriteTx`
(which re-runs the effect, aborting the controller), then `read` and replace
`data`. -/
def settle (s : Sys) (pid : Nat) (success : Bool)
    (rows : List TableSchema) : Sys :=
  match findPoller s pid with
  | none => s
  | some p =>
    if p.aborted || p.outcome.isSome then s
    else
      let s1 := { s with pollers := setOutcome s.pollers pid success }
      let s2 := { s1 with pendingWriteTx := none,
                          log := s1.log ++ [Action.clearPending] }
      let s3 := effectCycle s2
      { s3 with data := rows, log := s3.log ++ [Action.refreshData],
                refreshLog := s3.refreshLog ++ [pid] }

/-- External events driving the coordinator. -/
inductive Event where
  | connected
  | created (name : String) (schema : List String)
  | writeSubmitted (h : String)
  | pollResolved (pid : Nat) (rows : List TableSchema)
  | pollRejected (pid : Nat) (rows : List TableSchema)
  | unmount
  deriving Repr, DecidableEq

/-- One coordinator transition.
`connected`: first wallet connection (`handleConnect`), which changes the
dependencies of the polling effect. `created`: `handleCreate` succeeded with
a table name and schema; a changed `tableName` changes the identity of
`clearPendingTxAndRefresh` and re-runs both effects (resetting `data`),
while an unchanged `tableName` leaves the memoized callback and the polling
effect alone. `writeSubmitted`: `handleWrite` ran `write` and called
`setPendingWriteTx` — possible exactly under `canWrite`, with no
`pendingWriteTx` guard. `pollResolved` / `pollRejected`: the poll future of
controller `pid` settles and the verifier's read for the refresh returns
`rows`. `unmount`: React runs the last cleanup and discards the instance. -/
def step (e : Event) (s : Sys) : Sys :=
  match e with
  | .connected =>
    if s.mounted && !s.signerSet then effectCycle { s with signerSet := true }
    else s
  | .created name sch =>
    if s.mounted && s.signerSet then
      if s.tableName = some name then { s with schema := sch }
      else
        effectCycle { s with tableName := some name, schema := sch,
                             data := [] }
    else s
  | .writeSubmitted h =>
    if canWrite s then
      if s.pendingWriteTx = some h then
        { s with log := s.log ++ [Action.submitWrite h] }
      else
        effectCycle { s with pendingWriteTx := some h,
                             log := s.log ++ [Action.submitWrite h] }
    else s
  | .pollResolved pid rows => settle s pid true rows
  | .pollRejected pid rows => settle s pid false rows
  | .unmount => { runCleanup s with mounted := false }

/-- Run a list of events. -/
def run (evs : List Event) (s : Sys) : Sys :=
  evs.foldl (fun t e => step e t) s

/-- States reachable from `init`. -/
def Reachable (s : Sys) : Prop := ∃ evs, run evs init = s

/-- Whether controller `pid` exists and has been aborted. -/
def pollerAborted (s : Sys) (pid : Nat) : Bool :=
  match findPoller s pid with
  | some p => p.aborted
  | none => false

/-- How many times the terminal callback ran for controller `pid`. -/
def refreshCount (s : Sys) (pid : Nat) : Nat :=
  s.refreshLog.count pid

/-- Number of live (not yet aborted) controllers. -/
def liveCount (s : Sys) : Nat :=
  (s.pollers.filter fun p => !p.aborted).length

/-! ## Helper lemmas about poller-list operations -/

theorem findP_nil (pid : Nat) : findP [] pid = none := rfl

theorem findP_cons (a : Poller) (l : List Poller) (pid : Nat) :
    findP (a :: l) pid = if a.pid = pid then some a else findP l pid := by
  by_cases h : a.pid = pid
  · have hb : (a.pid == pid) = true := by simpa using h
    simp [findP, List.find?, hb, h]
  · have hb : (a.pid == pid) = false := by simpa using h
    simp [findP, List.find?, hb, h]

theorem findP_map (f : Poller → Poller) (hf : ∀ p, (f p).pid = p.pid)
    (ps : List Poller) (pid : Nat) :
    findP (ps.map f) pid = (findP ps pid).map f := by
  induction ps with
  | nil => rfl
  | cons a l ih =>
    rw [List.map_cons, findP_cons, findP_cons, hf a]
    by_cases h : a.pid = pid <;> simp [h, ih]

theorem findP_append_of_some (ps qs : List Poller) (pid : Nat) (p : Poller)
    (h : findP ps pid = some p) : findP (ps ++ qs) pid = some p := by
  induction ps with
  | nil => simp [findP_nil] at h
  | cons a l ih =>
    rw [List.cons_append, findP_cons]
    rw [findP_cons] at h
    by_cases ha : a.pid = pid
    · simpa [ha] using h
    · simp only [ha, if_false] at h ⊢
      exact ih h

theorem findP_append_of_none (ps qs : List Poller) (pid : Nat)
    (h : findP ps pid = none) : findP (ps ++ qs) pid = findP qs pid := by
  induction ps with
  | nil => simp
  | cons a l ih =>
    rw [List.cons_append, findP_cons]
    rw [findP_cons] at h
    by_cases ha : a.pid = pid
    · simp [ha] at h
    · simp only [ha, if_false] at h ⊢
      exact ih h

theorem findP_some (ps : List Poller) (pid : Nat) (p : Poller)
    (h : findP ps pid = some p) : p ∈ ps ∧ p.pid = pid := by
  refine ⟨List.mem_of_find?_eq_some h, ?_⟩
  have := List.find?_some h
  simpa using this

theorem findP_eq_none_iff (ps : List Poller) (pid : Nat) :
    findP ps pid = none ↔ ∀ p ∈ ps, p.pid ≠ pid := by
  simp [findP, List.find?_eq_none]

theorem findP_isSome_of_mem (ps : List Poller) (p : Poller)
    (hp : p ∈ ps) (pid : Nat) (hpid : p.pid = pid) :
    ∃ q, findP ps pid = some q ∧ q ∈ ps ∧ q.pid = pid := by
  cases h : findP ps pid with
  | none =>
    exact absurd hpid ((findP_eq_none_iff ps pid).mp h p hp)
  | some q =>
    exact ⟨q, rfl, (findP_some ps pid q h).1, (findP_some ps pid q h).2⟩

theorem abortPid_map_pid (ps : List Poller) (c : Nat) :
    (abortPid ps c).map Poller.pid = ps.map Poller.pid := by
  induction ps with
  | nil => rfl
  | cons a l ih =>
    by_cases h : a.pid = c <;> simp [abortPid, h] at ih ⊢ <;> exact ih

theorem setOutcome_map_pid (ps : List Poller) (c : Nat) (b : Bool) :
    (setOutcome ps c b).map Poller.pid = ps.map Poller.pid := by
  induction ps with
  | nil => rfl
  | cons a l ih =>
    by_cases h : a.pid = c <;> simp [setOutcome, h] at ih ⊢ <;> exact ih

theorem findP_abortPid (ps : List Poller) (c pid : Nat) :
    findP (abortPid ps c) pid =
      (findP ps pid).map
        fun p => if p.pid = c then { p with aborted := true } else p := by
  exact findP_map _ (fun p => by by_cases h : p.pid = c <;> simp [h]) ps pid

theorem findP_setOutcome (ps : List Poller) (c pid : Nat) (b : Bool) :
    findP (setOutcome ps c b) pid =
      (findP ps pid).map
        fun p => if p.pid = c then { p with outcome := some b } else p := by
  exact findP_map _ (fun p => by by_cases h : p.pid = c <;> simp [h]) ps pid

theorem mem_abortPid_live (ps : List Poller) (c : Nat) (q : Poller)
    (hq : q ∈ abortPid ps c) (hl : q.aborted = false) :
    q ∈ ps ∧ q.pid ≠ c := by
  rcases List.mem_map.mp hq with ⟨p, hp, hpq⟩
  by_cases h : p.pid = c
  · simp [h] at hpq
    rw [← hpq] at hl
    simp at hl
  · simp [h] at hpq
    exact ⟨hpq ▸ hp, hpq ▸ h⟩

theorem mem_abortPid (ps : List Poller) (c : Nat) (q : Poller)
    (hq : q ∈ abortPid ps c) :
    ∃ p ∈ ps, q.pid = p.pid ∧ q.handle = p.handle := by
  rcases List.mem_map.mp hq with ⟨p, hp, hpq⟩
  refine ⟨p, hp, ?_⟩
  by_cases h : p.pid = c
  · simp [h] at hpq
    rw [← hpq]
    simp [h]
  · simp [h] at hpq
    rw [← hpq]
    simp

theorem mem_setOutcome (ps : List Poller) (c : Nat) (b : Bool) (q : Poller)
    (hq : q ∈ setOutcome ps c b) :
    ∃ p ∈ ps, q.pid = p.pid ∧ q.aborted = p.aborted ∧ q.handle = p.handle := by
  rcases List.mem_map.mp hq with ⟨p, hp, hpq⟩
  refine ⟨p, hp, ?_⟩
  by_cases h : p.pid = c
  · simp [h] at hpq
    rw [← hpq]
    simp [h]
  · simp [h] at hpq
    rw [← hpq]
    simp

/-! ## Field lemmas for `effectCycle` -/

theorem effectCycle_none_none (s : Sys) (hp : s.pendingWriteTx = none)
    (hc : s.current = none) : effectCycle s = s := by
  simp [effectCycle, runCleanup, startEffect, hp, hc]

theorem effectCycle_none_cur (s : Sys) (hp : s.pendingWriteTx = none)
    (c : Nat) (hc : s.current = some c) :
    effectCycle s =
      { s with pollers := abortPid s.pollers c, current := none,
               log := s.log ++ [Action.abortCtrl c] } := by
  simp [effectCycle, runCleanup, startEffect, hp, hc]

theorem effectCycle_some_none (s : Sys) (h : String)
    (hp : s.pendingWriteTx = some h) (hc : s.current = none) :
    effectCycle s =
      { s with
        pollers := s.pollers ++ [{ pid := s.nextPid, handle := h,
                                   aborted := false, outcome := none }],
        current := some s.nextPid, nextPid := s.nextPid + 1,
        log := s.log ++ [Action.startPoll s.nextPid h] } := by
  simp [effectCycle, runCleanup, startEffect, hp, hc]

theorem effectCycle_some_cur (s : Sys) (h : String)
    (hp : s.pendingWriteTx = some h) (c : Nat) (hc : s.current = some c) :
    effectCycle s =
      { s with
        pollers := abortPid s.pollers c ++
                   [{ pid := s.nextPid, handle := h,
                      aborted := false, outcome := none }],
        current := some s.nextPid, nextPid := s.nextPid + 1,
        log := s.log ++ [Action.abortCtrl c, Action.startPoll s.nextPid h] } := by
  simp [effectCycle, runCleanup, startEffect, hp, hc]

/-! ## The coordinator invariant -/

/-- Structural invariant of reachable coordinator states: controller ids are
fresh and distinct; every live controller is the one the mounted effect
instance would clean up; the cleanup target exists and is live; a pending
write is watched by a live poller for its hash; without a pending write (or
after unmount) no cleanup target is registered. -/
structure Inv (s : Sys) : Prop where
  bound : ∀ p ∈ s.pollers, p.pid < s.nextPid
  nodup : (s.pollers.map Poller.pid).Nodup
  liveCur : ∀ p ∈ s.pollers, p.aborted = false → s.current = some p.pid
  curLive : ∀ pid, s.current = some pid →
    ∃ p ∈ s.pollers, p.pid = pid ∧ p.aborted = false
  watch : s.mounted = true → ∀ h, s.pendingWriteTx = some h →
    ∃ p ∈ s.pollers, s.current = some p.pid ∧ p.aborted = false ∧ p.handle = h
  noPend : s.pendingWriteTx = none → s.current = none
  unm : s.mounted = false → s.current = none

theorem inv_init : Inv init := by
  constructor <;> simp [init]

theorem inv_effectCycle (s : Sys)
    (hb : ∀ p ∈ s.pollers, p.pid < s.nextPid)
    (hn : (s.pollers.map Poller.pid).Nodup)
    (hl : ∀ p ∈ s.pollers, p.aborted = false → s.current = some p.pid)
    (hm : s.mounted = true ∨ s.pendingWriteTx = none) :
    Inv (effectCycle s) := by
  cases hp : s.pendingWriteTx with
  | none =>
    cases hc : s.current with
    | none =>
      rw [effectCycle_none_none s hp hc]
      constructor
      · exact hb
      · exact hn
      · intro p hmem hab
        exact hl p hmem hab
      · intro pid hpid
        rw [hc] at hpid
        exact absurd hpid (by simp)
      · intro _ h hsome
        rw [hp] at hsome
        exact absurd hsome (by simp)
      · intro _
        exact hc
      · intro _
        exact hc
    | some c =>
      rw [effectCycle_none_cur s hp c hc]
      constructor
      · intro p hmem
        dsimp only at hmem ⊢
        rcases mem_abortPid s.pollers c p hmem with ⟨q, hq, hpid, _⟩
        rw [hpid]
        exact hb q hq
      · simpa [abortPid_map_pid] using hn
      · intro p hmem hab
        dsimp only at hmem
        rcases mem_abortPid_live s.pollers c p hmem hab with ⟨hq, hne⟩
        have h1 := hl p hq hab
        rw [hc] at h1
        exact absurd (Option.some.inj h1).symm hne
      · intro pid hpid
        exact absurd hpid (by simp)
      · intro _ h hsome
        exact absurd hsome (by simp [hp])
      · intro _
        rfl
      · intro _
        rfl
  | some h =>
    have hm' : s.mounted = true := by
      rcases hm with hm' | hpn
      · exact hm'
      · rw [hpn] at hp
        exact absurd hp (by simp)
    cases hc : s.current with
    | none =>
      rw [effectCycle_some_none s h hp hc]
      constructor
      · intro p hmem
        rcases List.mem_append.mp hmem with hin | hin
        · exact Nat.lt_succ_of_lt (hb p hin)
        · simp at hin
          simp [hin]
      · rw [List.map_append, List.nodup_append]
        refine ⟨hn, by simp, ?_⟩
        intro a ha
        simp only [List.map_cons, List.map_nil, List.mem_singleton]
        intro hb'
        rcases List.mem_map.mp ha with ⟨q, hq, hqa⟩
        have := hb q hq
        omega
      · intro p hmem hab
        rcases List.mem_append.mp hmem with hin | hin
        · have := hl p hin hab
          rw [hc] at this
          exact absurd this (by simp)
        · simp at hin
          simp [hin]
      · intro pid hpid
        simp at hpid
        refine ⟨{ pid := s.nextPid, handle := h, aborted := false,
                  outcome := none }, by simp, by simp [hpid]⟩
      · intro _ h' hsome
        simp at hsome
        refine ⟨{ pid := s.nextPid, handle := h, aborted := false,
                  outcome := none }, by simp, by simp, by simp, ?_⟩
        simp [hp] at hsome
        simp [hsome]
      · intro hnone
        simp [hp] at hnone
      · intro hmf
        rw [hm'] at hmf
        exact absurd hmf (by simp)
    | some c =>
      rw [effectCycle_some_cur s h hp c hc]
      constructor
      · intro p hmem
        dsimp only at hmem ⊢
        rcases List.mem_append.mp hmem with hin | hin
        · rcases mem_abortPid s.pollers c p hin with ⟨q, hq, hpid, _⟩
          rw [hpid]
          exact Nat.lt_succ_of_lt (hb q hq)
        · simp at hin
          simp [hin]
      · rw [List.map_append, List.nodup_append]
        refine ⟨by simpa [abortPid_map_pid] using hn, by simp, ?_⟩
        intro a ha
        simp only [List.map_cons, List.map_nil, List.mem_singleton]
        intro hb'
        rw [abortPid_map_pid] at ha
        rcases List.mem_map.mp ha with ⟨q, hq, hqa⟩
        have := hb q hq
        omega
      · intro p hmem hab
        dsimp only at hmem
        rcases List.mem_append.mp hmem with hin | hin
        · rcases mem_abortPid_live s.pollers c p hin hab with ⟨hq, hne⟩
          have h1 := hl p hq hab
          rw [hc] at h1
          exact absurd (Option.some.inj h1).symm hne
        · simp at hin
          simp [hin]
      · intro pid hpid
        simp at hpid
        refine ⟨{ pid := s.nextPid, handle := h, aborted := false,
                  outcome := none }, by simp, by simp [hpid]⟩
      · intro _ h' hsome
        simp at hsome
        refine ⟨{ pid := s.nextPid, handle := h, aborted := false,
                  outcome := none }, by simp, by simp, by simp, ?_⟩
        simp [hp] at hsome
        simp [hsome]
      · intro hnone
        simp [hp] at hnone
      · intro hmf
        rw [hm'] at hmf
        exact absurd hmf (by simp)

/-! ## Case lemmas for `settle` and invariant preservation -/

theorem settle_none (s : Sys) (pid : Nat) (b : Bool) (rows : List TableSchema)
    (hf : findPoller s pid = none) : settle s pid b rows = s := by
  unfold settle
  rw [hf]

theorem settle_dead (s : Sys) (pid : Nat) (b : Bool) (rows : List TableSchema)
    (p : Poller) (hf : findPoller s pid = some p)
    (hcond : (p.aborted || p.outcome.isSome) = true) :
    settle s pid b rows = s := by
  unfold settle
  rw [hf]
  simp [hcond]

theorem settle_live (s : Sys) (pid : Nat) (b : Bool) (rows : List TableSchema)
    (p : Poller) (hf : findPoller s pid = some p)
    (hcond : (p.aborted || p.outcome.isSome) = false) :
    settle s pid b rows =
      { effectCycle
          { s with pollers := setOutcome s.pollers pid b,
                   pendingWriteTx := none,
                   log := s.log ++ [Action.clearPending] } with
        data := rows,
        log := (effectCycle
          { s with pollers := setOutcome s.pollers pid b,
                   pendingWriteTx := none,
                   log := s.log ++ [Action.clearPending] }).log ++
          [Action.refreshData],
        refreshLog := (effectCycle
          { s with pollers := setOutcome s.pollers pid b,
                   pendingWriteTx := none,
                   log := s.log ++ [Action.clearPending] }).refreshLog ++
          [pid] } := by
  unfold settle
  rw [hf]
  simp [hcond]

theorem settle_live_cur (s : Sys) (pid : Nat) (b : Bool)
    (rows : List TableSchema) (p : Poller) (c : Nat)
    (hf : findPoller s pid = some p)
    (hcond : (p.aborted || p.outcome.isSome) = false)
    (hc : s.current = some c) :
    settle s pid b rows =
      { s with pollers := abortPid (setOutcome s.pollers pid b) c,
               current := none, pendingWriteTx := none, data := rows,
               refreshLog := s.refreshLog ++ [pid],
               log := s.log ++ [Action.clearPending, Action.abortCtrl c,
                                Action.refreshData] } := by
  rw [settle_live s pid b rows p hf hcond]
  rw [effectCycle_none_cur
      { s with pollers := setOutcome s.pollers pid b,
               pendingWriteTx := none,
               log := s.log ++ [Action.clearPending] } rfl c hc]
  simp

theorem settle_live_nocur (s : Sys) (pid : Nat) (b : Bool)
    (rows : List TableSchema) (p : Poller)
    (hf : findPoller s pid = some p)
    (hcond : (p.aborted || p.outcome.isSome) = false)
    (hc : s.current = none) :
    settle s pid b rows =
      { s with pollers := setOutcome s.pollers pid b,
               pendingWriteTx := none, data := rows,
               refreshLog := s.refreshLog ++ [pid],
               log := s.log ++ [Action.clearPending, Action.refreshData] } := by
  rw [settle_live s pid b rows p hf hcond]
  rw [effectCycle_none_none
      { s with pollers := setOutcome s.pollers pid b,
               pendingWriteTx := none,
               log := s.log ++ [Action.clearPending] } rfl hc]
  simp

theorem inv_congr (s t : Sys) (hInv : Inv s)
    (hpol : t.pollers = s.pollers) (hcur : t.current = s.current)
    (hnext : t.nextPid = s.nextPid)
    (hpend : t.pendingWriteTx = s.pendingWriteTx)
    (hmnt : t.mounted = s.mounted) : Inv t := by
  constructor
  · rw [hpol, hnext]
    exact hInv.bound
  · rw [hpol]
    exact hInv.nodup
  · rw [hpol, hcur]
    exact hInv.liveCur
  · rw [hcur, hpol]
    exact hInv.curLive
  · rw [hmnt, hpend, hpol, hcur]
    exact hInv.watch
  · rw [hpend, hcur]
    exact hInv.noPend
  · rw [hmnt, hcur]
    exact hInv.unm

theorem inv_settle (s : Sys) (hInv : Inv s) (pid : Nat) (b : Bool)
    (rows : List TableSchema) : Inv (settle s pid b rows) := by
  cases hf : findPoller s pid with
  | none =>
    rw [settle_none s pid b rows hf]
    exact hInv
  | some p =>
    cases hcond : (p.aborted || p.outcome.isSome) with
    | true =>
      rw [settle_dead s pid b rows p hf hcond]
      exact hInv
    | false =>
      rw [settle_live s pid b rows p hf hcond]
      dsimp only
      refine inv_congr (effectCycle _) _ ?_ rfl rfl rfl rfl rfl
      apply inv_effectCycle
      · intro q hq
        rcases mem_setOutcome s.pollers pid b q hq with ⟨r, hr, hpid, _, _⟩
        rw [hpid]
        exact hInv.bound r hr
      · simpa [setOutcome_map_pid] using hInv.nodup
      · intro q hq hab
        rcases mem_setOutcome s.pollers pid b q hq with ⟨r, hr, hpid, habq, _⟩
        rw [hpid]
        exact hInv.liveCur r hr (by rw [← habq]; exact hab)
      · right
        rfl

theorem inv_step (e : Event) (s : Sys) (hInv : Inv s) : Inv (step e s) := by
  cases e with
  | connected =>
    simp only [step]
    by_cases hg : (s.mounted && !s.signerSet) = true
    · rw [if_pos hg]
      apply inv_effectCycle
      · exact hInv.bound
      · exact hInv.nodup
      · exact hInv.liveCur
      · left
        have := hg
        simp [Bool.and_eq_true] at this
        exact this.1
    · rw [if_neg hg]
      exact hInv
  | created name sch =>
    simp only [step]
    by_cases hg : (s.mounted && s.signerSet) = true
    · rw [if_pos hg]
      by_cases ht : s.tableName = some name
      · rw [if_pos ht]
        exact inv_congr s _ hInv rfl rfl rfl rfl rfl
      · rw [if_neg ht]
        apply inv_effectCycle
        · exact hInv.bound
        · exact hInv.nodup
        · exact hInv.liveCur
        · left
          have := hg
          simp [Bool.and_eq_true] at this
          exact this.1
    · rw [if_neg hg]
      exact hInv
  | writeSubmitted h =>
    simp only [step]
    by_cases hg : canWrite s = true
    · rw [if_pos hg]
      by_cases hp : s.pendingWriteTx = some h
      · rw [if_pos hp]
        exact inv_congr s _ hInv rfl rfl rfl rfl rfl
      · rw [if_neg hp]
        apply inv_effectCycle
        · exact hInv.bound
        · exact hInv.nodup
        · exact hInv.liveCur
        · left
          have := hg
          simp [canWrite, Bool.and_eq_true] at this
          exact this.1.1
    · rw [if_neg hg]
      exact hInv
  | pollResolved pid rows => exact inv_settle s hInv pid true rows
  | pollRejected pid rows => exact inv_settle s hInv pid false rows
  | unmount =>
    simp only [step]
    cases hc : s.current with
    | none =>
      simp only [runCleanup, hc]
      constructor
      · exact hInv.bound
      · exact hInv.nodup
      · intro p hmem hab
        have h1 := hInv.liveCur p hmem hab
        rw [hc] at h1
        exact absurd h1 (by simp)
      · intro pid hpid
        simp at hpid
      · intro hmt
        simp at hmt
      · intro _
        rfl
      · intro _
        rfl
    | some c =>
      simp only [runCleanup, hc]
      constructor
      · intro p hmem
        dsimp only at hmem ⊢
        rcases mem_abortPid s.pollers c p hmem with ⟨q, hq, hpid, _⟩
        rw [hpid]
        exact hInv.bound q hq
      · simpa [abortPid_map_pid] using hInv.nodup
      · intro p hmem hab
        dsimp only at hmem
        rcases mem_abortPid_live s.pollers c p hmem hab with ⟨hq, hne⟩
        have h1 := hInv.liveCur p hq hab
        rw [hc] at h1
        exact absurd (Option.some.inj h1).symm hne
      · intro pid hpid
        exact absurd hpid (by simp)
      · intro hmt
        exact absurd hmt (by simp)
      · intro _
        rfl
      · intro _
        rfl

theorem run_cons (e : Event) (evs : List Event) (s : Sys) :
    run (e :: evs) s = run evs (step e s) := rfl

theorem run_append (evs fvs : List Event) (s : Sys) :
    run (evs ++ fvs) s = run fvs (run evs s) := by
  simp [run, List.foldl_append]

theorem inv_run (evs : List Event) (s : Sys) (h : Inv s) :
    Inv (run evs s) := by
  induction evs generalizing s with
  | nil => exact h
  | cons e evs ih =>
    rw [run_cons]
    exact ih _ (inv_step e s h)

theorem reachable_inv (s : Sys) (h : Reachable s) : Inv s := by
  rcases h with ⟨evs, hrun⟩
  rw [← hrun]
  exact inv_run evs init inv_init

theorem reachable_step (s : Sys) (h : Reachable s) (e : Event) :
    Reachable (step e s) := by
  rcases h with ⟨evs, hrun⟩
  exact ⟨evs ++ [e], by rw [run_append, hrun, run, List.foldl]; rfl⟩

/-! ## Aborted controllers stay aborted and never refresh -/

theorem pollerAborted_iff (s : Sys) (pid : Nat) :
    pollerAborted s pid = true ↔
      ∃ p, findPoller s pid = some p ∧ p.aborted = true := by
  unfold pollerAborted
  cases h : findPoller s pid <;> simp

theorem effectCycle_refreshLog (s : Sys) :
    (effectCycle s).refreshLog = s.refreshLog := by
  cases hp : s.pendingWriteTx with
  | none =>
    cases hc : s.current with
    | none => rw [effectCycle_none_none s hp hc]
    | some c => rw [effectCycle_none_cur s hp c hc]
  | some h =>
    cases hc : s.current with
    | none => rw [effectCycle_some_none s h hp hc]
    | some c => rw [effectCycle_some_cur s h hp c hc]

theorem effectCycle_pendingWriteTx (s : Sys) :
    (effectCycle s).pendingWriteTx = s.pendingWriteTx := by
  cases hp : s.pendingWriteTx with
  | none =>
    cases hc : s.current with
    | none => rw [effectCycle_none_none s hp hc]; exact hp
    | some c => rw [effectCycle_none_cur s hp c hc]; exact hp
  | some h =>
    cases hc : s.current with
    | none => rw [effectCycle_some_none s h hp hc]; exact hp
    | some c => rw [effectCycle_some_cur s h hp c hc]; exact hp

theorem pollerAborted_effectCycle (s : Sys) (pid : Nat)
    (hab : pollerAborted s pid = true) :
    pollerAborted (effectCycle s) pid = true := by
  rcases (pollerAborted_iff s pid).mp hab with ⟨p, hf, hpa⟩
  apply (pollerAborted_iff _ pid).mpr
  cases hp : s.pendingWriteTx with
  | none =>
    cases hc : s.current with
    | none =>
      rw [effectCycle_none_none s hp hc]
      exact ⟨p, hf, hpa⟩
    | some c =>
      rw [effectCycle_none_cur s hp c hc]
      refine ⟨if p.pid = c then { p with aborted := true } else p, ?_, ?_⟩
      · unfold findPoller at hf ⊢
        dsimp only
        rw [findP_abortPid, hf]
        rfl
      · by_cases h : p.pid = c <;> simp [h, hpa]
  | some h =>
    cases hc : s.current with
    | none =>
      rw [effectCycle_some_none s h hp hc]
      refine ⟨p, ?_, hpa⟩
      unfold findPoller at hf ⊢
      dsimp only
      exact findP_append_of_some _ _ _ _ hf
    | some c =>
      rw [effectCycle_some_cur s h hp c hc]
      refine ⟨if p.pid = c then { p with aborted := true } else p, ?_, ?_⟩
      · unfold findPoller at hf ⊢
        dsimp only
        apply findP_append_of_some
        rw [findP_abortPid, hf]
        rfl
      · by_cases hqc : p.pid = c <;> simp [hqc, hpa]

theorem pollerAborted_setOutcome (s : Sys) (pid2 : Nat) (b : Bool) (pid : Nat)
    (hab : pollerAborted s pid = true) :
    pollerAborted { s with pollers := setOutcome s.pollers pid2 b } pid
      = true := by
  rcases (pollerAborted_iff s pid).mp hab with ⟨p, hf, hpa⟩
  apply (pollerAborted_iff _ pid).mpr
  refine ⟨if p.pid = pid2 then { p with outcome := some b } else p, ?_, ?_⟩
  · unfold findPoller at hf ⊢
    dsimp only
    rw [findP_setOutcome, hf]
    rfl
  · by_cases h : p.pid = pid2 <;> simp [h, hpa]

theorem settle_aborted_noop (s : Sys) (pid2 : Nat) (b : Bool)
    (rows : List TableSchema) (pid : Nat)
    (hab : pollerAborted s pid = true) :
    pollerAborted (settle s pid2 b rows) pid = true ∧
    refreshCount (settle s pid2 b rows) pid = refreshCount s pid := by
  cases hf : findPoller s pid2 with
  | none =>
    rw [settle_none s pid2 b rows hf]
    exact ⟨hab, rfl⟩
  | some p2 =>
    cases hcond : (p2.aborted || p2.outcome.isSome) with
    | true =>
      rw [settle_dead s pid2 b rows p2 hf hcond]
      exact ⟨hab, rfl⟩
    | false =>
      have hne : pid2 ≠ pid := by
        intro he
        rw [he] at hf
        rcases (pollerAborted_iff s pid).mp hab with ⟨p, hf2, hpa⟩
        rw [hf] at hf2
        have : p2 = p := Option.some.inj hf2
        rw [this, hpa] at hcond
        simp at hcond
      rw [settle_live s pid2 b rows p2 hf hcond]
      dsimp only
      constructor
      · exact pollerAborted_effectCycle _ pid
          (pollerAborted_setOutcome s pid2 b pid hab)
      · unfold refreshCount
        dsimp only
        rw [effectCycle_refreshLog]
        dsimp only
        rw [List.count_append]
        have : [pid2].count pid = 0 := by
          simp [List.count_cons]
          intro h
          exact hne h
        rw [this]
        omega


theorem step_aborted (e : Event) (s : Sys) (pid : Nat)
    (hab : pollerAborted s pid = true) :
    pollerAborted (step e s) pid = true ∧
    refreshCount (step e s) pid = refreshCount s pid := by
  cases e with
  | connected =>
    simp only [step]
    by_cases hg : (s.mounted && !s.signerSet) = true
    · rw [if_pos hg]
      refine ⟨pollerAborted_effectCycle _ pid hab, ?_⟩
      unfold refreshCount
      rw [effectCycle_refreshLog]
    · rw [if_neg hg]
      exact ⟨hab, rfl⟩
  | created name sch =>
    simp only [step]
    by_cases hg : (s.mounted && s.signerSet) = true
    · rw [if_pos hg]
      by_cases ht : s.tableName = some name
      · rw [if_pos ht]
        exact ⟨hab, rfl⟩
      · rw [if_neg ht]
        refine ⟨pollerAborted_effectCycle _ pid hab, ?_⟩
        unfold refreshCount
        rw [effectCycle_refreshLog]
    · rw [if_neg hg]
      exact ⟨hab, rfl⟩
  | writeSubmitted h =>
    simp only [step]
    by_cases hg : canWrite s = true
    · rw [if_pos hg]
      by_cases hp : s.pendingWriteTx = some h
      · rw [if_pos hp]
        exact ⟨hab, rfl⟩
      · rw [if_neg hp]
        refine ⟨pollerAborted_effectCycle _ pid hab, ?_⟩
        unfold refreshCount
        rw [effectCycle_refreshLog]
    · rw [if_neg hg]
      exact ⟨hab, rfl⟩
  | pollResolved pid2 rows => exact settle_aborted_noop s pid2 true rows pid hab
  | pollRejected pid2 rows => exact settle_aborted_noop s pid2 false rows pid hab
  | unmount =>
    simp only [step]
    cases hc : s.current with
    | none =>
      simp only [runCleanup, hc]
      exact ⟨hab, rfl⟩
    | some c =>
      simp only [runCleanup, hc]
      rcases (pollerAborted_iff s pid).mp hab with ⟨p, hf, hpa⟩
      constructor
      · apply (pollerAborted_iff _ pid).mpr
        refine ⟨if p.pid = c then { p with aborted := true } else p, ?_, ?_⟩
        · unfold findPoller at hf ⊢
          dsimp only
          rw [findP_abortPid, hf]
          rfl
        · by_cases h : p.pid = c <;> simp [h, hpa]
      · rfl

theorem run_aborted (evs : List Event) (s : Sys) (pid : Nat)
    (hab : pollerAborted s pid = true) :
    pollerAborted (run evs s) pid = true ∧
    refreshCount (run evs s) pid = refreshCount s pid := by
  induction evs generalizing s with
  | nil => exact ⟨hab, rfl⟩
  | cons e evs ih =>
    rw [run_cons]
    rcases step_aborted e s pid hab with ⟨h1, h2⟩
    rcases ih (step e s) h1 with ⟨h3, h4⟩
    exact ⟨h3, h4.trans h2⟩

/-! ## At most one live controller -/

theorem length_le_one_of_forall_eq (l : List Nat) (c : Nat)
    (hn : l.Nodup) (hc : ∀ x ∈ l, x = c) : l.length ≤ 1 := by
  match l with
  | [] => simp
  | [x] => simp
  | x :: y :: t =>
    exfalso
    have hx := hc x (by simp)
    have hy := hc y (by simp)
    rw [List.nodup_cons] at hn
    exact hn.1 (by simp [hx, hy])

theorem liveCount_le_one (s : Sys) (hInv : Inv s) : liveCount s ≤ 1 := by
  unfold liveCount
  cases hc : s.current with
  | none =>
    have hnil : s.pollers.filter (fun p => !p.aborted) = [] := by
      rw [List.filter_eq_nil_iff]
      intro p hp hq
      have hab : p.aborted = false := by simpa using hq
      have := hInv.liveCur p hp hab
      rw [hc] at this
      exact absurd this (by simp)
    rw [hnil]
    simp
  | some c =>
    have hlen :
        ((s.pollers.filter fun p => !p.aborted).map Poller.pid).length ≤ 1 := by
      apply length_le_one_of_forall_eq _ c
      · exact hInv.nodup.sublist
          (List.Sublist.map Poller.pid (List.filter_sublist _))
      · intro x hx
        rcases List.mem_map.mp hx with ⟨p, hp, hpx⟩
        have hmem := (List.mem_filter.mp hp).1
        have hab : p.aborted = false := by
          simpa using (List.mem_filter.mp hp).2
        have h1 := hInv.liveCur p hmem hab
        rw [hc] at h1
        rw [← hpx]
        exact (Option.some.inj h1).symm
    simpa using hlen

theorem effectCycle_mounted (s : Sys) :
    (effectCycle s).mounted = s.mounted := by
  cases hp : s.pendingWriteTx with
  | none =>
    cases hc : s.current with
    | none => rw [effectCycle_none_none s hp hc]
    | some c => rw [effectCycle_none_cur s hp c hc]
  | some h =>
    cases hc : s.current with
    | none => rw [effectCycle_some_none s h hp hc]
    | some c => rw [effectCycle_some_cur s h hp c hc]

theorem findP_abortPid_self (ps : List Poller) (c : Nat) (p : Poller)
    (hp : p ∈ ps) (hpid : p.pid = c) :
    ∃ q, findP (abortPid ps c) c = some q ∧ q.aborted = true := by
  rcases findP_isSome_of_mem ps p hp c hpid with ⟨q, hq, _, hqpid⟩
  rw [findP_abortPid, hq]
  exact ⟨_, rfl, by simp [hqpid]⟩

theorem step_writeSubmitted_new (s : Sys) (h : String) (oldpid : Nat)
    (hg : canWrite s = true) (hph : s.pendingWriteTx ≠ some h)
    (hc : s.current = some oldpid) :
    step (Event.writeSubmitted h) s =
      { s with pendingWriteTx := some h,
               pollers := abortPid s.pollers oldpid ++
                 [{ pid := s.nextPid, handle := h, aborted := false,
                    outcome := none }],
               current := some s.nextPid, nextPid := s.nextPid + 1,
               log := s.log ++ [Action.submitWrite h, Action.abortCtrl oldpid,
                                Action.startPoll s.nextPid h] } := by
  simp only [step]
  rw [if_pos hg, if_neg hph]
  rw [effectCycle_some_cur
      { s with pendingWriteTx := some h,
               log := s.log ++ [Action.submitWrite h] } h rfl oldpid hc]
  simp

theorem step_writeSubmitted_nocur (s : Sys) (h : String)
    (hg : canWrite s = true) (hph : s.pendingWriteTx ≠ some h)
    (hc : s.current = none) :
    step (Event.writeSubmitted h) s =
      { s with pendingWriteTx := some h,
               pollers := s.pollers ++
                 [{ pid := s.nextPid, handle := h, aborted := false,
                    outcome := none }],
               current := some s.nextPid, nextPid := s.nextPid + 1,
               log := s.log ++ [Action.submitWrite h,
                                Action.startPoll s.nextPid h] } := by
  simp only [step]
  rw [if_pos hg, if_neg hph]
  rw [effectCycle_some_none
      { s with pendingWriteTx := some h,
               log := s.log ++ [Action.submitWrite h] } h rfl hc]
  simp

/-! ## Concrete executions used as witnesses and counterexamples -/

/-- Sample row returned by the refresh read. -/
def rowBobby : TableSchema :=
  { id := 1, name := "Bobby Tables", block := "5", tx := "0xa" }

/-- Connect, create a table, submit one write. -/
def traceOneWrite : List Event :=
  [Event.connected, Event.created "t_31337_2" ["id integer "],
   Event.writeSubmitted "0xa"]

/-- The state after `traceOneWrite`: one live poller (controller 0) for
hash `0xa`. -/
def sOneWrite : Sys := run traceOneWrite init

/-- Two writes submitted back-to-back before either confirms. -/
def traceTwoWrites : List Event :=
  traceOneWrite ++ [Event.writeSubmitted "0xb"]

/-- The state after `traceTwoWrites`: controller 0 aborted, controller 1
live for hash `0xb`. -/
def sTwoWrites : Sys := run traceTwoWrites init

/-! ## Claim C1 -/

/-- C1: once the cancellation signal of a poll (controller `pid`) has been
raised, the refresh callback `clearPendingTxAndRefresh` never fires for that
poll again, whatever events follow — including the verifier later reporting
the operation confirmed (`pollResolved`): its refresh count stays exactly
where it was, and the controller stays aborted. -/
theorem c1_cancelled_poll_never_refreshes (s : Sys) (pid : Nat)
    (hab : pollerAborted s pid = true) (evs : List Event) :
    refreshCount (run evs s) pid = refreshCount s pid ∧
    pollerAborted (run evs s) pid = true := by
  rcases run_aborted evs s pid hab with ⟨h1, h2⟩
  exact ⟨h2, h1⟩

/-- Witness for C1: after two back-to-back writes, controller 0 (the first
write's poll) is aborted; the verifier then reports confirmation for it, and
its refresh count stays 0. -/
theorem c1_witness :
    refreshCount (run [Event.pollResolved 0 [rowBobby]] sTwoWrites) 0 =
      refreshCount sTwoWrites 0 ∧
    pollerAborted (run [Event.pollResolved 0 [rowBobby]] sTwoWrites) 0 =
      true :=
  c1_cancelled_poll_never_refreshes sTwoWrites 0 (by decide)
    [Event.pollResolved 0 [rowBobby]]

/-! ## Claim C2 -/

/-- C2: in every reachable state at most one cancellation token
(`AbortController`) is live; and submitting a new write `h` while controller
`oldpid` is the live one logs, in order, the submission, the abort of the
old controller, and only then the start of the new poll — whose poller, and
every live poller afterwards, polls `h`. -/
theorem c2_single_live_token (s : Sys) (hs : Reachable s) :
    liveCount s ≤ 1 ∧
    ∀ h oldpid, canWrite s = true → s.pendingWriteTx ≠ some h →
      s.current = some oldpid →
      (step (Event.writeSubmitted h) s).log =
        s.log ++ [Action.submitWrite h, Action.abortCtrl oldpid,
                  Action.startPoll s.nextPid h] ∧
      ∀ p ∈ (step (Event.writeSubmitted h) s).pollers, p.aborted = false →
        p.handle = h := by
  have hInv := reachable_inv s hs
  refine ⟨liveCount_le_one s hInv, ?_⟩
  intro h oldpid hg hph hc
  rw [step_writeSubmitted_new s h oldpid hg hph hc]
  constructor
  · rfl
  · intro p hmem hab
    dsimp only at hmem
    rcases List.mem_append.mp hmem with hin | hin
    · rcases mem_abortPid_live _ oldpid p hin hab with ⟨hq, hne⟩
      have h1 := hInv.liveCur p hq hab
      rw [hc] at h1
      exact absurd (Option.some.inj h1).symm hne
    · simp at hin
      simp [hin]

/-- Witness for C2: in the one-write state, at most one token is live, and a
second write `0xb` aborts controller 0 before starting poll 1, after which
every live poller polls `0xb`. -/
theorem c2_witness :
    liveCount sOneWrite ≤ 1 ∧
    ((step (Event.writeSubmitted "0xb") sOneWrite).log =
        sOneWrite.log ++ [Action.submitWrite "0xb", Action.abortCtrl 0,
                          Action.startPoll sOneWrite.nextPid "0xb"] ∧
      ∀ p ∈ (step (Event.writeSubmitted "0xb") sOneWrite).pollers,
        p.aborted = false → p.handle = "0xb") :=
  ⟨(c2_single_live_token sOneWrite ⟨traceOneWrite, rfl⟩).1,
   (c2_single_live_token sOneWrite ⟨traceOneWrite, rfl⟩).2 "0xb" 0
     (by decide) (by decide) (by decide)⟩

/-! ## Claim C3 -/

/-- Projection of a poller without the settlement flag of its future. -/
def Poller.erase (p : Poller) : Nat × String × Bool :=
  (p.pid, p.handle, p.aborted)

/-- Everything observable about a coordinator state except the settlement
flags (resolved vs rejected) of the poll futures. -/
def Sys.obs (s : Sys) :=
  (s.mounted, s.signerSet, s.tableName, s.schema, s.data, s.pendingWriteTx,
   s.pollers.map Poller.erase, s.current, s.nextPid, s.refreshLog, s.log)

theorem erase_setOutcome (ps : List Poller) (pid : Nat) (b b2 : Bool) :
    (setOutcome ps pid b).map Poller.erase =
    (setOutcome ps pid b2).map Poller.erase := by
  unfold setOutcome
  rw [List.map_map, List.map_map]
  apply List.map_congr_left
  intro a _
  by_cases h : a.pid = pid <;> simp [Function.comp, h, Poller.erase]

theorem erase_abort_congr (c : Nat) (q r : Poller)
    (h1 : q.pid = r.pid) (h2 : q.handle = r.handle)
    (h3 : q.aborted = r.aborted) :
    Poller.erase (if q.pid = c then { q with aborted := true } else q) =
    Poller.erase (if r.pid = c then { r with aborted := true } else r) := by
  by_cases hq : q.pid = c
  · rw [if_pos hq, if_pos (h1 ▸ hq)]
    simp [Poller.erase, h1, h2]
  · rw [if_neg hq, if_neg (h1 ▸ hq)]
    simp [Poller.erase, h1, h2, h3]

theorem erase_abort_setOutcome (ps : List Poller) (pid c : Nat)
    (b b2 : Bool) :
    (abortPid (setOutcome ps pid b) c).map Poller.erase =
    (abortPid (setOutcome ps pid b2) c).map Poller.erase := by
  unfold setOutcome abortPid
  rw [List.map_map, List.map_map, List.map_map, List.map_map]
  apply List.map_congr_left
  intro a _
  simp only [Function.comp]
  apply erase_abort_congr
  · by_cases h : a.pid = pid <;> simp [h]
  · by_cases h : a.pid = pid <;> simp [h]
  · by_cases h : a.pid = pid <;> simp [h]

/-- C3: the `then` and `catch` handlers of the poll future are the same
terminal callback — a resolved poll (confirmation) and a rejected poll
(unrecoverable error) produce states that agree on everything except the
recorded completion flag of the future. -/
theorem c3_success_failure_same_callback (s : Sys) (pid : Nat)
    (rows : List TableSchema) :
    Sys.obs (step (Event.pollResolved pid rows) s) =
    Sys.obs (step (Event.pollRejected pid rows) s) := by
  simp only [step]
  cases hf : findPoller s pid with
  | none =>
    rw [settle_none s pid true rows hf, settle_none s pid false rows hf]
  | some p =>
    cases hcond : (p.aborted || p.outcome.isSome) with
    | true =>
      rw [settle_dead s pid true rows p hf hcond,
          settle_dead s pid false rows p hf hcond]
    | false =>
      cases hc : s.current with
      | none =>
        rw [settle_live_nocur s pid true rows p hf hcond hc,
            settle_live_nocur s pid false rows p hf hcond hc]
        simp [Sys.obs, erase_setOutcome s.pollers pid true false]
      | some c =>
        rw [settle_live_cur s pid true rows p c hf hcond hc,
            settle_live_cur s pid false rows p c hf hcond hc]
        simp [Sys.obs, erase_abort_setOutcome s.pollers pid c true false]

/-! ## Claim C4 -/

/-- C4: while a write is pending in a mounted coordinator, a live controller
for its hash is watching it, and every event either keeps it pending (still
mounted), exits it as Confirmed (the poll settles: the pending entry is
cleared and the refresh callback runs exactly once more for the watching
controller), or exits it as Superseded (a new write or unmount aborts the
watching controller without running its refresh) — pending state never
persists past its resolution. -/
theorem c4_pending_exactly_one_exit (s : Sys) (hs : Reachable s) (h : String)
    (hm : s.mounted = true) (hp : s.pendingWriteTx = some h) :
    (∃ p ∈ s.pollers, s.current = some p.pid ∧ p.aborted = false ∧
       p.handle = h) ∧
    ∀ e : Event,
      ((step e s).pendingWriteTx = some h ∧ (step e s).mounted = true) ∨
      (∃ pid, s.current = some pid ∧ (step e s).pendingWriteTx = none ∧
         refreshCount (step e s) pid = refreshCount s pid + 1) ∨
      (∃ pid, s.current = some pid ∧ pollerAborted (step e s) pid = true ∧
         refreshCount (step e s) pid = refreshCount s pid) := by
  have hInv := reachable_inv s hs
  rcases hInv.watch hm h hp with ⟨p, hmem, hcur, hab, hh⟩
  refine ⟨⟨p, hmem, hcur, hab, hh⟩, ?_⟩
  intro e
  cases e with
  | connected =>
    left
    simp only [step]
    by_cases hg : (s.mounted && !s.signerSet) = true
    · rw [if_pos hg]
      constructor
      · rw [effectCycle_pendingWriteTx]
        exact hp
      · rw [effectCycle_mounted]
        exact hm
    · rw [if_neg hg]
      exact ⟨hp, hm⟩
  | created name sch =>
    left
    simp only [step]
    by_cases hg : (s.mounted && s.signerSet) = true
    · rw [if_pos hg]
      by_cases ht : s.tableName = some name
      · rw [if_pos ht]
        exact ⟨hp, hm⟩
      · rw [if_neg ht]
        constructor
        · rw [effectCycle_pendingWriteTx]
          exact hp
        · rw [effectCycle_mounted]
          exact hm
    · rw [if_neg hg]
      exact ⟨hp, hm⟩
  | writeSubmitted h2 =>
    by_cases hg : canWrite s = true
    · by_cases hph : s.pendingWriteTx = some h2
      · left
        simp only [step]
        rw [if_pos hg, if_pos hph]
        exact ⟨hp, hm⟩
      · right
        right
        rw [step_writeSubmitted_new s h2 p.pid hg hph hcur]
        refine ⟨p.pid, hcur, ?_, rfl⟩
        apply (pollerAborted_iff _ _).mpr
        rcases findP_abortPid_self s.pollers p.pid p hmem rfl with ⟨q, hq, hqa⟩
        refine ⟨q, ?_, hqa⟩
        exact findP_append_of_some _ _ _ _ hq
    · left
      simp only [step]
      rw [if_neg hg]
      exact ⟨hp, hm⟩
  | pollResolved pid2 rows =>
    simp only [step]
    cases hf : findPoller s pid2 with
    | none =>
      left
      rw [settle_none s pid2 true rows hf]
      exact ⟨hp, hm⟩
    | some p2 =>
      cases hcond : (p2.aborted || p2.outcome.isSome) with
      | true =>
        left
        rw [settle_dead s pid2 true rows p2 hf hcond]
        exact ⟨hp, hm⟩
      | false =>
        right
        left
        have hmem2 := (findP_some s.pollers pid2 p2 hf).1
        have hab2 : p2.aborted = false := by
          have hco := hcond
          simp at hco
          exact hco.1
        have hcur2 := hInv.liveCur p2 hmem2 hab2
        rw [settle_live_cur s pid2 true rows p2 p2.pid hf hcond hcur2]
        refine ⟨p2.pid, hcur2, rfl, ?_⟩
        unfold refreshCount
        dsimp only
        rw [List.count_append]
        have hpid2 := (findP_some s.pollers pid2 p2 hf).2
        simp [hpid2]
  | pollRejected pid2 rows =>
    simp only [step]
    cases hf : findPoller s pid2 with
    | none =>
      left
      rw [settle_none s pid2 false rows hf]
      exact ⟨hp, hm⟩
    | some p2 =>
      cases hcond : (p2.aborted || p2.outcome.isSome) with
      | true =>
        left
        rw [settle_dead s pid2 false rows p2 hf hcond]
        exact ⟨hp, hm⟩
      | false =>
        right
        left
        have hmem2 := (findP_some s.pollers pid2 p2 hf).1
        have hab2 : p2.aborted = false := by
          have hco := hcond
          simp at hco
          exact hco.1
        have hcur2 := hInv.liveCur p2 hmem2 hab2
        rw [settle_live_cur s pid2 false rows p2 p2.pid hf hcond hcur2]
        refine ⟨p2.pid, hcur2, rfl, ?_⟩
        unfold refreshCount
        dsimp only
        rw [List.count_append]
        have hpid2 := (findP_some s.pollers pid2 p2 hf).2
        simp [hpid2]
  | unmount =>
    right
    right
    refine ⟨p.pid, hcur, ?_, ?_⟩
    · simp only [step, runCleanup, hcur]
      apply (pollerAborted_iff _ _).mpr
      rcases findP_abortPid_self s.pollers p.pid p hmem rfl with ⟨q, hq, hqa⟩
      exact ⟨q, hq, hqa⟩
    · simp only [step, runCleanup, hcur]
      rfl

/-- Witness for C4: in the one-write state a live controller watches `0xa`;
when the verifier confirms it, the Confirmed exit fires: pending is cleared
and the watcher's refresh count goes up by one. -/
theorem c4_witness :
    (∃ p ∈ sOneWrite.pollers, sOneWrite.current = some p.pid ∧
       p.aborted = false ∧ p.handle = "0xa") ∧
    (((step (Event.pollResolved 0 [rowBobby]) sOneWrite).pendingWriteTx =
        some "0xa" ∧
      (step (Event.pollResolved 0 [rowBobby]) sOneWrite).mounted = true) ∨
     (∃ pid, sOneWrite.current = some pid ∧
        (step (Event.pollResolved 0 [rowBobby]) sOneWrite).pendingWriteTx =
          none ∧
        refreshCount (step (Event.pollResolved 0 [rowBobby]) sOneWrite) pid =
          refreshCount sOneWrite pid + 1) ∨
     (∃ pid, sOneWrite.current = some pid ∧
        pollerAborted (step (Event.pollResolved 0 [rowBobby]) sOneWrite) pid =
          true ∧
        refreshCount (step (Event.pollResolved 0 [rowBobby]) sOneWrite) pid =
          refreshCount sOneWrite pid)) :=
  ⟨(c4_pending_exactly_one_exit sOneWrite ⟨traceOneWrite, rfl⟩ "0xa"
      (by decide) (by decide)).1,
   (c4_pending_exactly_one_exit sOneWrite ⟨traceOneWrite, rfl⟩ "0xa"
      (by decide) (by decide)).2 (Event.pollResolved 0 [rowBobby])⟩

/-! ## Claim C8 -/

/-- C8 counterexample: in the reachable one-write state `pendingWriteTx` is
set, yet the write path is still enabled (`canWrite` checks only the signer
and the table name) and a second write request goes through — a submission
is logged and the pending slot is replaced.  This refutes the claim that a
write is only submitted when `pendingWriteTx` is unset. -/
theorem c8_counterexample :
    sOneWrite.pendingWriteTx = some "0xa" ∧
    canWrite sOneWrite = true ∧
    (step (Event.writeSubmitted "0xb") sOneWrite).pendingWriteTx =
      some "0xb" ∧
    Action.submitWrite "0xb" ∈
      (step (Event.writeSubmitted "0xb") sOneWrite).log := by
  refine ⟨by decide, by decide, by decide, by decide⟩

/-- C8 amended: the write transition is guarded only by `canWrite` (mounted
component, connected signer, known table name) — not by the absence of a
pending operation.  Whenever `canWrite` holds a write request is submitted
and becomes the pending entry; if a distinct write was already pending, its
watching controller is aborted (superseded) rather than left running. -/
theorem c8_amended_guard_is_canwrite (s : Sys) (hs : Reachable s)
    (h : String) (hg : canWrite s = true) :
    Action.submitWrite h ∈ (step (Event.writeSubmitted h) s).log ∧
    (step (Event.writeSubmitted h) s).pendingWriteTx = some h ∧
    (∀ pid, s.current = some pid → s.pendingWriteTx ≠ some h →
      pollerAborted (step (Event.writeSubmitted h) s) pid = true) := by
  have hInv := reachable_inv s hs
  by_cases hph : s.pendingWriteTx = some h
  · simp only [step]
    rw [if_pos hg, if_pos hph]
    refine ⟨by simp, hph, ?_⟩
    intro pid _ hne
    exact absurd hph hne
  · refine ⟨?_, ?_, ?_⟩
    · cases hc : s.current with
      | none =>
        rw [step_writeSubmitted_nocur s h hg hph hc]
        simp
      | some c =>
        rw [step_writeSubmitted_new s h c hg hph hc]
        simp
    · cases hc : s.current with
      | none => rw [step_writeSubmitted_nocur s h hg hph hc]
      | some c => rw [step_writeSubmitted_new s h c hg hph hc]
    · intro pid hcpid hne
      rw [step_writeSubmitted_new s h pid hg hph hcpid]
      apply (pollerAborted_iff _ _).mpr
      rcases hInv.curLive pid hcpid with ⟨q0, hq0mem, hq0pid, _⟩
      rcases findP_abortPid_self s.pollers pid q0 hq0mem hq0pid with
        ⟨q, hq, hqa⟩
      exact ⟨q, findP_append_of_some _ _ _ _ hq, hqa⟩

/-- Witness for the amended C8: a second write `0xb` submitted while `0xa`
is pending goes through and aborts controller 0. -/
theorem c8_amended_witness :
    Action.submitWrite "0xb" ∈
      (step (Event.writeSubmitted "0xb") sOneWrite).log ∧
    (step (Event.writeSubmitted "0xb") sOneWrite).pendingWriteTx =
      some "0xb" ∧
    pollerAborted (step (Event.writeSubmitted "0xb") sOneWrite) 0 = true :=
  ⟨(c8_amended_guard_is_canwrite sOneWrite ⟨traceOneWrite, rfl⟩ "0xb"
      (by decide)).1,
   (c8_amended_guard_is_canwrite sOneWrite ⟨traceOneWrite, rfl⟩ "0xb"
      (by decide)).2.1,
   (c8_amended_guard_is_canwrite sOneWrite ⟨traceOneWrite, rfl⟩ "0xb"
      (by decide)).2.2 0 (by decide) (by decide)⟩

/-! ## Claim C9 -/

/-- The ordering asserted by the claim for the terminal callback: the
refresh (read and replacement of row data) takes place before the pending
entry is cleared. -/
def refreshBeforeClear (l : List Action) : Prop :=
  l.findIdx (· == Action.refreshData) < l.findIdx (· == Action.clearPending)

/-- A single write followed by the verifier confirming it. -/
def traceConfirmedWrite : List Event :=
  traceOneWrite ++ [Event.pollResolved 0 [rowBobby]]

/-- C9 counterexample: in the concrete confirmed-write run the coordinator
logs `clearPending` (index 2) strictly before `refreshData` (index 4) —
`clearPendingTxAndRefresh` calls `setPendingWriteTx(undefined)` first and
only then awaits `read` and replaces the data, so the claimed
refresh-before-clear order is false. -/
theorem c9_counterexample :
    (run traceConfirmedWrite init).log =
      [Action.submitWrite "0xa", Action.startPoll 0 "0xa",
       Action.clearPending, Action.abortCtrl 0, Action.refreshData] ∧
    ¬ refreshBeforeClear (run traceConfirmedWrite init).log := by
  refine ⟨by decide, ?_⟩
  unfold refreshBeforeClear
  decide

/-- C9 amended: on poller resolution the terminal callback first clears the
pending entry, then (through the effect cleanup triggered by that state
change) aborts the controller, and only then completes the refresh that
replaces the local row data with the read result. -/
theorem c9_amended_clear_before_refresh (s : Sys) (pid : Nat)
    (rows : List TableSchema) (p : Poller)
    (hf : findPoller s pid = some p)
    (hcond : (p.aborted || p.outcome.isSome) = false)
    (hc : s.current = some pid) :
    (step (Event.pollResolved pid rows) s).log =
      s.log ++ [Action.clearPending, Action.abortCtrl pid,
                Action.refreshData] ∧
    (step (Event.pollResolved pid rows) s).pendingWriteTx = none ∧
    (step (Event.pollResolved pid rows) s).data = rows := by
  simp only [step]
  rw [settle_live_cur s pid true rows p pid hf hcond hc]
  exact ⟨rfl, rfl, rfl⟩

/-- Witness for the amended C9 at the concrete one-write state. -/
theorem c9_amended_witness :
    (step (Event.pollResolved 0 [rowBobby]) sOneWrite).log =
      sOneWrite.log ++ [Action.clearPending, Action.abortCtrl 0,
                        Action.refreshData] ∧
    (step (Event.pollResolved 0 [rowBobby]) sOneWrite).pendingWriteTx =
      none ∧
    (step (Event.pollResolved 0 [rowBobby]) sOneWrite).data = [rowBobby] :=
  c9_amended_clear_before_refresh sOneWrite 0 [rowBobby]
    { pid := 0, handle := "0xa", aborted := false, outcome := none }
    (by decide) (by decide) (by decide)

/-! ## Claim C5 -/

/-- C5: `create` blocks on confirmation and then returns the network-assigned
table name taken from the confirmed transaction, together with the schema
obtained from the validator lookup by chain id and table id
(`validator.getTableById`) — the returned schema is a function of the
validator response alone, never the locally declared schema string.  When
confirmation never resolves, the call does not return at all instead of
returning a result built from local data. -/
theorem c5_create_returns_validator_schema (env : CreateEnv) (pfx : String)
    (t : Txn) (info : TableInfo)
    (hrun : env.runCreate (createStatement pfx) =
      Except.ok { txn := some t })
    (hwait : env.waitResolves = true) (hwr : env.waitResult = Except.ok ())
    (hval : env.getTableById env.chainId t.tableId = Except.ok info) :
    create env pfx =
      some (Except.ok (t.name, info.schema.columns.map formatColumn)) ∧
    create { env with waitResolves := false } pfx = none := by
  constructor
  · unfold create
    rw [hrun]
    simp [hwait, hwr, hval]
  · unfold create
    dsimp only
    rw [hrun]
    simp

/-- The four columns of the demo schema as the validator reports them. -/
def sampleColumns : List Column :=
  [{ name := "id", type := "integer", constraints := some "primary key" },
   { name := "name", type := "text", constraints := none },
   { name := "block", type := "text", constraints := none },
   { name := "tx", type := "text", constraints := none }]

/-- Concrete create environment: the network accepts the create, confirms
it, and the validator returns the four-column schema. -/
def envOk : CreateEnv :=
  { chainId := 31337,
    runCreate := fun _ =>
      Except.ok { txn := some { tableId := "2", name := "mytable_31337_2",
                                transactionHash := "0xc" } },
    waitResolves := true,
    waitResult := Except.ok (),
    getTableById := fun _ _ =>
      Except.ok { schema := { columns := sampleColumns } } }

/-- Witness for C5 at the concrete environment. -/
theorem c5_witness :
    create envOk "mytable" =
      some (Except.ok ("mytable_31337_2", sampleColumns.map formatColumn)) ∧
    create { envOk with waitResolves := false } "mytable" = none :=
  c5_create_returns_validator_schema envOk "mytable"
    { tableId := "2", name := "mytable_31337_2", transactionHash := "0xc" }
    { schema := { columns := sampleColumns } } rfl rfl rfl rfl

/-! ## Claim C6 -/

/-- Create environment whose confirmation never resolves. -/
def envHang : CreateEnv := { envOk with waitResolves := false }

/-- C6 counterexample: `create` takes no caller-supplied bound, and on an
environment where confirmation never resolves the call never terminates —
it produces neither a resource descriptor nor any error (in particular no
provisioning error), refuting the claimed bounded failure. -/
theorem c6_counterexample : create envHang "mytable" = none := rfl

/-- C6 amended: the reference `create` has no timeout: whenever submission
succeeded (a transaction exists) but `txn.wait()` never resolves, the call
hangs forever instead of failing with a provisioning error. -/
theorem c6_amended_no_bound_hangs (env : CreateEnv) (pfx : String) (t : Txn)
    (hrun : env.runCreate (createStatement pfx) =
      Except.ok { txn := some t })
    (hwait : env.waitResolves = false) :
    create env pfx = none := by
  unfold create
  rw [hrun]
  simp [hwait]

/-- Witness for the amended C6 at the concrete hanging environment. -/
theorem c6_amended_witness : create envHang "mytable" = none :=
  c6_amended_no_bound_hangs envHang "mytable"
    { tableId := "2", name := "mytable_31337_2", transactionHash := "0xc" }
    rfl rfl

/-! ## Claim C7 -/

/-- Connect and create a table; no write pending yet. -/
def traceReady : List Event :=
  [Event.connected, Event.created "t_31337_2" ["id integer "]]

/-- The state with a signer and a table but no pending write. -/
def sReady : Sys := run traceReady init

/-- C7: on a successful submission `write` returns exactly the transaction
hash of the still-pending insert; its result is independent of whether the
transaction is ever confirmed (`write` performs no wait); and in the
coordinator the handle passed to `setPendingWriteTx` is exactly the one the
freshly started poll watches. -/
theorem c7_write_returns_pending_handle (env : WriteEnv) (tn nm : String)
    (t : WriteTxn)
    (hrun : env.runInsert (insertStatement tn) nm =
      Except.ok { txn := some t }) :
    write env tn nm = Except.ok t.transactionHash ∧
    (∀ b, write { env with confirmLater := b } tn nm = write env tn nm) ∧
    (∀ s h, Reachable s → canWrite s = true →
      s.pendingWriteTx ≠ some h →
      (step (Event.writeSubmitted h) s).current = some s.nextPid ∧
      findPoller (step (Event.writeSubmitted h) s) s.nextPid =
        some { pid := s.nextPid, handle := h, aborted := false,
               outcome := none }) := by
  refine ⟨?_, ?_, ?_⟩
  · unfold write
    rw [hrun]
  · intro b
    rfl
  · intro s h hs hg hph
    have hInv := reachable_inv s hs
    cases hc : s.current with
    | none =>
      rw [step_writeSubmitted_nocur s h hg hph hc]
      refine ⟨rfl, ?_⟩
      have hnone : findP s.pollers s.nextPid = none := by
        rw [findP_eq_none_iff]
        intro q hq
        exact Nat.ne_of_lt (hInv.bound q hq)
      unfold findPoller
      dsimp only
      rw [findP_append_of_none _ _ _ hnone, findP_cons]
      simp
    | some c =>
      rw [step_writeSubmitted_new s h c hg hph hc]
      refine ⟨rfl, ?_⟩
      have hnone : findP (abortPid s.pollers c) s.nextPid = none := by
        rw [findP_eq_none_iff]
        intro q hq
        rcases mem_abortPid s.pollers c q hq with ⟨r, hr, hpid, _⟩
        rw [hpid]
        exact Nat.ne_of_lt (hInv.bound r hr)
      unfold findPoller
      dsimp only
      rw [findP_append_of_none _ _ _ hnone, findP_cons]
      simp

/-- Concrete write environment: the network accepts the insert and returns
the pending transaction hash `0xa`. -/
def envWrite : WriteEnv :=
  { runInsert := fun _ _ =>
      Except.ok { txn := some { transactionHash := "0xa" } },
    confirmLater := false }

/-- Witness for C7: the submission returns `0xa` (whether or not the network
later confirms), and the poll started for it watches exactly `0xa`. -/
theorem c7_witness :
    write envWrite "t_31337_2" "Bobby Tables" = Except.ok "0xa" ∧
    write { envWrite with confirmLater := true } "t_31337_2" "Bobby Tables" =
      write envWrite "t_31337_2" "Bobby Tables" ∧
    ((step (Event.writeSubmitted "0xa") sReady).current =
       some sReady.nextPid ∧
     findPoller (step (Event.writeSubmitted "0xa") sReady) sReady.nextPid =
       some { pid := sReady.nextPid, handle := "0xa", aborted := false,
              outcome := none }) :=
  ⟨(c7_write_returns_pending_handle envWrite "t_31337_2" "Bobby Tables"
      { transactionHash := "0xa" } rfl).1,
   (c7_write_returns_pending_handle envWrite "t_31337_2" "Bobby Tables"
      { transactionHash := "0xa" } rfl).2.1 true,
   (c7_write_returns_pending_handle envWrite "t_31337_2" "Bobby Tables"
      { transactionHash := "0xa" } rfl).2.2 sReady "0xa" ⟨traceReady, rfl⟩
      (by decide) (by decide)⟩

/-! ## Claim C10 -/

/-- C10: when `create` throws, `handleCreate` catches the error, leaves
`tableName` and `schema` unchanged at their previous values, and resets
`isLoading` to `false` — a failed provisioning attempt never partially
updates table state. -/
theorem c10_handleCreate_error_containment (sig : Bool) (e : String)
    (st : AppCreateState) :
    (handleCreate sig (Except.error e) st).tableName = st.tableName ∧
    (handleCreate sig (Except.error e) st).schema = st.schema ∧
    (handleCreate sig (Except.error e) st).isLoading = false := by
  unfold handleCreate
  cases sig <;> simp

end Tableland
